import Mathlib

/-! Gherkin scenario extraction.

A shallow embedding of `gherkin.go`: the syntax-tree visitor that recognises
calls shaped like `gherkin.Scenario(<literal>)`, the file enumerator, the
`Extract` entry point and the helper `Scenario`, followed by theorems about
them.

Modelling conventions.

* Go strings are Lean strings (the literals of a successfully parsed Go file
  are valid UTF-8, so a sequence of Unicode scalar values is faithful).
* A Go `nil` slice and an empty slice are both the empty list.
* `go/ast` nodes are a tagged tree (`Node`); the kinds the visitor inspects
  are separate constructors, every other kind is `Node.Other` carrying its
  children in the order `ast.Walk` visits them.
* The pointer-receiver visitor is explicit state passing.
* The file system and the Go parser are a parameter (`Env`).
* `fmt.Sprintf` is a parameter of `Scenario`; `Sprintf` models the part of it
  used here (plain text, `%%`, `%s`, `%d`, `%v` on strings and ints) and is
  undefined elsewhere.
-/

namespace Gherkin

/-! ## Strings -/

/-- Go `unicode.IsSpace`: the Unicode White_Space code points. -/
def isSpace (c : Char) : Bool :=
  c = '\t' || c = '\n' || c.toNat = 0x0B || c.toNat = 0x0C || c = '\r' || c = ' '
    || c.toNat = 0x85 || c.toNat = 0xA0 || c.toNat = 0x1680
    || (0x2000 ≤ c.toNat && c.toNat ≤ 0x200A)
    || c.toNat = 0x2028 || c.toNat = 0x2029 || c.toNat = 0x202F
    || c.toNat = 0x205F || c.toNat = 0x3000

/-- Go `strings.TrimSpace`: drop the leading, then the trailing white space. -/
def TrimSpace (s : String) : String :=
  ⟨((s.data.dropWhile isSpace).reverse.dropWhile isSpace).reverse⟩

/-- The replacer of line 13, `strings.NewReplacer("\t", "")`, applied to a
string: every tab is replaced by the empty string. -/
def indentReplacer (s : String) : String :=
  ⟨s.data.filter (fun c => c ≠ '\t')⟩

/-- Scan of Go `filepath.Ext` over the reversed path: stop at a separator,
return the suffix starting at the first dot met. -/
def extScan : List Char → List Char → List Char
  | [], _ => []
  | c :: rest, acc =>
    if c = '/' then []
    else if c = '.' then '.' :: acc
    else extScan rest (c :: acc)

/-- Go `filepath.Ext`: the suffix beginning at the last dot of the last path
element, empty when there is none. -/
def Ext (path : String) : String :=
  ⟨extScan path.data.reverse []⟩

/-! ## Syntax trees -/

/-- The `go/token` kinds a basic literal can carry. -/
inductive Token
  | INT
  | FLOAT
  | IMAG
  | CHAR
  | STRING
deriving DecidableEq, Repr

/-- A `go/ast` node. `Sel` of a selector is an `*ast.Ident`, kept as its
`Name`; `Other` is any node kind the visitor does not inspect. -/
inductive Node
  | Ident (Name : String)
  | BasicLit (Kind : Token) (Value : String)
  | SelectorExpr (X : Node) (Sel : String)
  | CallExpr (Fun : Node) (Args : List Node)
  | GenDecl (Specs : List Node)
  | Other (children : List Node)
deriving Repr

/-- An `*ast.File`: optional doc comment group, package name, top-level
declarations. -/
structure File where
  Doc : Option Node
  Name : String
  Decls : List Node

/-- The file as the node handed to `ast.Walk`: not a call expression, its
children are the doc comment (when present), the package name and the
declarations, in that order. -/
def File.node (f : File) : Node :=
  .Other (f.Doc.toList ++ [.Ident f.Name] ++ f.Decls)

/-! ## Results and errors -/

/-- A Go `error` value, identified by its message. -/
structure GoError where
  msg : String
deriving DecidableEq, Repr

/-- The type `Results` of lines 22-25. -/
structure Results where
  Walked : List String := []
  Scenarios : List String := []
deriving DecidableEq, Repr

/-! ## The visitor -/

/-- The type `visitor` of lines 67-70; `pkgDecl` is the set of general
declarations (the keys mapped to `true`). -/
structure visitor where
  pkgDecl : List Node
  gherkins : List String

/-- Whether a declaration is an `*ast.GenDecl`. -/
def isGenDecl : Node → Bool
  | .GenDecl _ => true
  | _ => false

/-- The function `newVisitor` of lines 72-85. -/
def newVisitor (f : File) : visitor :=
  { pkgDecl := f.Decls.filter isGenDecl, gherkins := [] }

/-- The method `extractScenario` of lines 115-141, checks in source order:
call expression, selector function, selected name, identifier qualifier and
its name, argument count, basic-literal argument. -/
def visitor.extractScenario (_v : visitor) (n : Node) : Bool × String :=
  match n with
  | .CallExpr fn args =>
    match fn with
    | .SelectorExpr x sel =>
      if sel ≠ "Scenario" then (false, "")
      else
        match x with
        | .Ident name =>
          if name ≠ "gherkin" then (false, "")
          else if args.length ≠ 1 then (false, "")
          else
            match args.head? with
            | some (.BasicLit _ value) => (true, TrimSpace value)
            | _ => (false, "")
        | _ => (false, "")
    | _ => (false, "")
  | _ => (false, "")

/-- The method `Visit` of lines 87-97. The node is `none` for Go `nil`; the
result is `none` when `Visit` returns `nil` (the receiver is then untouched)
and otherwise the state of the receiver, which is the visitor returned. -/
def visitor.Visit (v : visitor) (n : Option Node) : Option visitor :=
  match n with
  | none => none
  | some n =>
    let r := v.extractScenario n
    if r.1 then some { v with gherkins := v.gherkins ++ [r.2] } else some v

/-- The body of `ast.Walk` around the walk of a node's children: visit the
node, stop when the visitor returned is `nil`, else walk the children with
the visitor returned and finish with `Visit(nil)`. -/
def walkWith (v : visitor) (n : Node) (children : visitor → visitor) : visitor :=
  match v.Visit (some n) with
  | none => v
  | some w =>
    let w1 := children w
    match w1.Visit none with
    | _ => w1

mutual
/-- Go `ast.Walk`: depth-first traversal, children in field order. -/
def Walk (v : visitor) : Node → visitor
  | .Ident name => walkWith v (.Ident name) id
  | .BasicLit k s => walkWith v (.BasicLit k s) id
  | .SelectorExpr x sel =>
    walkWith v (.SelectorExpr x sel) (fun w => walkWith (Walk w x) (.Ident sel) id)
  | .CallExpr fn args =>
    walkWith v (.CallExpr fn args) (fun w => walkList (Walk w fn) args)
  | .GenDecl specs => walkWith v (.GenDecl specs) (fun w => walkList w specs)
  | .Other cs => walkWith v (.Other cs) (fun w => walkList w cs)
/-- The helper `walkList` of `go/ast`: walk each node of a list in order. -/
def walkList (v : visitor) : List Node → visitor
  | [] => v
  | n :: ns => walkList (Walk v n) ns
end

/-! ## File enumeration -/

/-- The kind of a directory entry, as its `os.FileInfo` reports it. -/
inductive FileMode
  | regular
  | dir
  | symlink
  | other
deriving DecidableEq, Repr

/-- One call `filepath.Walk` makes to its callback: the path, the kind of
the entry, and the error met reaching it, if any. -/
structure WalkEntry where
  path : String
  mode : FileMode
  err : Option GoError
deriving DecidableEq, Repr

/-- The environment of a run: for each root, the calls `filepath.Walk` would
make to a callback that never fails, in order; and the outcome of
`parser.ParseFile` for each path. -/
structure Env where
  walk : String → List WalkEntry
  parse : String → Except GoError File

/-- Go `filepath.Walk` for a callback that reports errors only by returning
them: the callback is run on the entries in order and the walk stops at, and
returns, the first error the callback returns. -/
def filepathWalk {σ : Type} (fn : σ → WalkEntry → σ × Option GoError) :
    List WalkEntry → σ → σ × Option GoError
  | [], s => (s, none)
  | e :: es, s =>
    match fn s e with
    | (s1, some err) => (s1, some err)
    | (s1, none) => filepathWalk fn es s1

/-- The callback of lines 55-63, on the list collected so far. -/
def walkGoFilesFn (files : List String) (e : WalkEntry) : List String × Option GoError :=
  match e.err with
  | some err => (files, some err)
  | none =>
    if Ext e.path = ".go" then (files ++ [e.path], none) else (files, none)

/-- The function `walkGoFiles` of lines 52-65. -/
def walkGoFiles (env : Env) (p : String) : List String × Option GoError :=
  filepathWalk walkGoFilesFn (env.walk p) []

/-! ## Extract -/

/-- The loop of lines 39-48 over the files still to process, `r` being the
results accumulated so far. -/
def extractLoop (env : Env) : List String → Results → Results × Option GoError
  | [], r => (r, none)
  | file :: rest, r =>
    match env.parse file with
    | .error err => ({}, some err)
    | .ok f =>
      let v := Walk (newVisitor f) f.node
      extractLoop env rest { r with Scenarios := r.Scenarios ++ v.gherkins }

/-- The function `Extract` of lines 30-50. -/
def Extract (env : Env) (base : String) : Results × Option GoError :=
  match walkGoFiles env base with
  | (_, some err) => ({}, some err)
  | (files, none) =>
    if files.length = 0 then
      ({}, some ⟨"no go source files found within " ++ base⟩)
    else
      extractLoop env files {}

/-! ## The helper Scenario -/

/-- An operand of a formatting call, in the fragment of `fmt` modelled here:
a Go string or a Go int. -/
inductive Arg
  | str (s : String)
  | int (n : Int)
deriving DecidableEq, Repr

/-- What `fmt` prints for one operand under a verb: `%v` and `%s` print a
string as it is, `%v` and `%d` print an int in decimal. The answer is `none`
for any other pair, which this model does not cover. -/
def printArg (x : Arg) (verb : Char) : Option (List Char) :=
  match x with
  | .str s => if verb = 'v' ∨ verb = 's' then some s.data else none
  | .int n => if verb = 'v' ∨ verb = 'd' then some (toString n).data else none

/-- The loop of `fmt` over a format: the text up to a percent sign is copied,
two percent signs print one, a verb prints the next operand. The answer is
`none` as soon as the format leaves the fragment modelled: flags, width,
precision, argument index, a verb or operand `printArg` does not cover, a
missing operand, operands left over, a percent sign ending the format. -/
def doPrintf : List Char → List Arg → Option (List Char)
  | [], [] => some []
  | [], _ :: _ => none
  | c :: rest, a =>
    if c = '%' then
      match rest with
      | [] => none
      | verb :: rest1 =>
        if verb = '%' then (doPrintf rest1 a).map (fun t => '%' :: t)
        else
          match a with
          | [] => none
          | x :: a1 =>
            match printArg x verb with
            | none => none
            | some t => (doPrintf rest1 a1).map (fun u => t ++ u)
    else (doPrintf rest a).map (fun t => c :: t)

/-- Go `fmt.Sprintf` on the fragment modelled, `none` outside it. -/
def Sprintf (format : String) (a : List Arg) : Option String :=
  (doPrintf format.data a).map String.mk

/-- A formatter prints what `fmt.Sprintf` prints wherever the model of
`Sprintf` is defined. -/
def agreesWithFmt (sprintf : String → List Arg → String) : Prop :=
  ∀ s a r, Sprintf s a = some r → sprintf s a = r

/-- A formatter that follows the model of `Sprintf` and prints nothing
outside the fragment modelled; it serves to run `Scenario` on concrete
inputs of the fragment. -/
def fragmentSprintf (s : String) (a : List Arg) : String :=
  (Sprintf s a).getD ""

/-- The function `Scenario` of lines 15-18; the library function
`fmt.Sprintf` it calls is the parameter `sprintf`. -/
def Scenario {α : Type} (sprintf : String → List α → String) (s : String)
    (a : List α) : String :=
  TrimSpace (indentReplacer (sprintf s a))

/-! ## Vocabulary of the claims -/

/-- The call `gherkin.Scenario(lit)` whose one argument is a basic literal of
kind `k` with raw source text `raw`. -/
def markerCall (k : Token) (raw : String) : Node :=
  .CallExpr (.SelectorExpr (.Ident "gherkin") "Scenario") [.BasicLit k raw]

/-- The raw source text of an interpreted string literal whose text between
the quotes is `X`. -/
def quoted (X : String) : String :=
  "\"" ++ X ++ "\""

mutual
/-- The nodes of a tree in depth-first pre-order: the node, then its children
left to right. -/
def preorder : Node → List Node
  | .Ident name => [.Ident name]
  | .BasicLit k s => [.BasicLit k s]
  | .SelectorExpr x sel => .SelectorExpr x sel :: (preorder x ++ [.Ident sel])
  | .CallExpr fn args => .CallExpr fn args :: (preorder fn ++ preorderList args)
  | .GenDecl specs => .GenDecl specs :: preorderList specs
  | .Other cs => .Other cs :: preorderList cs
/-- Pre-order listing of a forest. -/
def preorderList : List Node → List Node
  | [] => []
  | n :: ns => preorder n ++ preorderList ns
end

/-- The scenario a node contributes: the text `extractScenario` returns when
it reports a match, nothing otherwise. -/
def markerText (n : Node) : Option String :=
  let r := visitor.extractScenario ⟨[], []⟩ n
  if r.1 then some r.2 else none

/-- A file's scenario list: one entry per matching node, in pre-order. -/
def fileScenarios (f : File) : List String :=
  (preorder f.node).filterMap markerText

/-- Whether a string begins with a white space character. -/
def startsWithSpace (t : String) : Bool :=
  match t.data.head? with
  | some c => isSpace c
  | none => false

/-- Whether a string ends with a white space character. -/
def endsWithSpace (t : String) : Bool :=
  match t.data.getLast? with
  | some c => isSpace c
  | none => false

/-- The marker-call shape in the words of the specification (section 3): a
receiver-qualified call, the qualifier being the identifier `gherkin`, the
function name `Scenario`, exactly one argument, that argument a literal
string token. -/
def isMarkerCallSpec : Node → Bool
  | .CallExpr (.SelectorExpr (.Ident q) sel) [.BasicLit .STRING _] =>
    q == "gherkin" && sel == "Scenario"
  | _ => false

/-- The text contributed by a call `gherkin.Scenario(lit)` whose one
argument is a basic literal of any kind: the raw text of the literal,
trimmed. Any other node contributes nothing. -/
def literalCallText : Node → Option String
  | .CallExpr (.SelectorExpr (.Ident q) sel) [.BasicLit _ raw] =>
    if q = "gherkin" ∧ sel = "Scenario" then some (TrimSpace raw) else none
  | _ => none

/-- The visitor state after appending scenarios to the accumulated ones. -/
def visitor.push (v : visitor) (l : List String) : visitor :=
  { v with gherkins := v.gherkins ++ l }

/-! ## Concrete inputs -/

/-- Tree of a file `d/a.go`: an import declaration and a function whose body
holds two marker calls, the second nested in the argument of another call. -/
def fileA : File :=
  { Doc := none
    Name := "a"
    Decls :=
      [ .GenDecl [.Other [.BasicLit .STRING "\"testing\""]],
        .Other [.Ident "TestA", .Other [],
          .Other [ .Other [markerCall .STRING "\"A1\""],
                   .Other [.CallExpr (.SelectorExpr (.Ident "t") "Log")
                            [markerCall .STRING "\"A2\""]] ] ] ] }

/-- Tree of a file `d/b.go`: a function whose body holds one marker call. -/
def fileB : File :=
  { Doc := none
    Name := "b"
    Decls := [ .Other [.Ident "TestB", .Other [],
                .Other [ .Other [markerCall .STRING "\"B1\""] ] ] ] }

/-- Tree of a file whose only marker call is `gherkin.Scenario(" Given x ")`. -/
def fileX : File :=
  { Doc := none
    Name := "x"
    Decls := [ .Other [.Ident "TestX", .Other [],
                .Other [ .Other [markerCall .STRING (quoted " Given x ")] ] ] ] }

/-- A directory `d` with two parseable Go files and a text file. -/
def envTwo : Env :=
  { walk := fun _ =>
      [ ⟨"d", .dir, none⟩, ⟨"d/a.go", .regular, none⟩, ⟨"d/b.go", .regular, none⟩,
        ⟨"d/notes.txt", .regular, none⟩ ]
    parse := fun p => if p = "d/a.go" then .ok fileA else .ok fileB }

/-- A directory `d` without any Go file. -/
def envNone : Env :=
  { walk := fun _ => [ ⟨"d", .dir, none⟩, ⟨"d/readme.md", .regular, none⟩ ]
    parse := fun _ => .error ⟨"open: no such file"⟩ }

/-- A directory `d` whose second Go file of three does not parse. -/
def envBad : Env :=
  { walk := fun _ =>
      [ ⟨"d", .dir, none⟩, ⟨"d/a.go", .regular, none⟩, ⟨"d/b.go", .regular, none⟩,
        ⟨"d/c.go", .regular, none⟩ ]
    parse := fun p =>
      if p = "d/b.go" then .error ⟨"d/b.go:1:1: expected declaration"⟩
      else if p = "d/a.go" then .ok fileA else .ok fileB }

/-- A directory `d` with the single Go file `fileX`. -/
def envX : Env :=
  { walk := fun _ => [ ⟨"d", .dir, none⟩, ⟨"d/x_test.go", .regular, none⟩ ]
    parse := fun _ => .ok fileX }

/-- Tree of a file without any marker call: a function whose body calls
`t.Log("x")` and `other.Scenario("y")`. -/
def filePlain : File :=
  { Doc := none
    Name := "p"
    Decls := [ .Other [.Ident "TestP", .Other [],
                .Other [ .Other [.CallExpr (.SelectorExpr (.Ident "t") "Log")
                                  [.BasicLit .STRING "\"x\""]],
                         .Other [.CallExpr (.SelectorExpr (.Ident "other") "Scenario")
                                  [.BasicLit .STRING "\"y\""]] ] ] ] }

/-- A directory `d` with the single Go file `filePlain`. -/
def envPlain : Env :=
  { walk := fun _ => [ ⟨"d", .dir, none⟩, ⟨"d/p.go", .regular, none⟩ ]
    parse := fun _ => .ok filePlain }

/-- A directory `d` holding a directory named `nats.go` with one Go file in
it, and a regular Go file. -/
def envDirGo : Env :=
  { walk := fun _ =>
      [ ⟨"d", .dir, none⟩, ⟨"d/b.go", .regular, none⟩, ⟨"d/nats.go", .dir, none⟩,
        ⟨"d/nats.go/conn.go", .regular, none⟩ ]
    parse := fun p =>
      if p = "d/nats.go" then .error ⟨"read d/nats.go: is a directory"⟩ else .ok fileB }

/-- A directory `d` whose walk meets an unreadable directory after one Go
file and before another. -/
def envErr : Env :=
  { walk := fun _ =>
      [ ⟨"d", .dir, none⟩, ⟨"d/a.go", .regular, none⟩,
        ⟨"d/locked", .dir, some ⟨"open d/locked: permission denied"⟩⟩,
        ⟨"d/z.go", .regular, none⟩ ]
    parse := fun p => if p = "d/a.go" then .ok fileA else .ok fileB }

/-- Tree of a file whose only call to `gherkin.Scenario` has the integer
literal `42` as argument. -/
def fileInt : File :=
  { Doc := none
    Name := "i"
    Decls := [ .Other [.Ident "TestI", .Other [],
                .Other [ .Other [markerCall .INT "42"] ] ] ] }

/-- A directory `d` with the single Go file `fileInt`. -/
def envInt : Env :=
  { walk := fun _ => [ ⟨"d", .dir, none⟩, ⟨"d/i.go", .regular, none⟩ ]
    parse := fun _ => .ok fileInt }

/-! ## Lemmas on the walk and the loop -/

/-- The outcome of `extractScenario` does not depend on the visitor. -/
theorem extractScenario_indep (v w : visitor) (n : Node) :
    v.extractScenario n = w.extractScenario n := rfl

/-- Appending nothing leaves the visitor as it was. -/
theorem push_nil (v : visitor) : v.push [] = v := by
  cases v; simp [visitor.push]

/-- Two appends are one append of the concatenation. -/
theorem push_push (v : visitor) (a b : List String) :
    (v.push a).push b = v.push (a ++ b) := by
  simp [visitor.push, List.append_assoc]

/-- Visiting a node appends the scenario the node contributes, if any. -/
theorem Visit_some (v : visitor) (n : Node) :
    v.Visit (some n) = some (v.push (markerText n).toList) := by
  unfold visitor.Visit markerText
  simp only [extractScenario_indep v ⟨[], []⟩ n]
  by_cases h : (visitor.extractScenario ⟨[], []⟩ n).1 = true
  · simp [h, visitor.push]
  · simp [h, push_nil]

/-- A walk step visits the node and then walks its children. -/
theorem walkWith_eq (v : visitor) (n : Node) (children : visitor → visitor) :
    walkWith v n children = children (v.push (markerText n).toList) := by
  simp [walkWith, Visit_some]

/-- The scenarios of a list of nodes with one more node in front. -/
theorem toList_append_filterMap (n : Node) (l : List Node) :
    (markerText n).toList ++ l.filterMap markerText = (n :: l).filterMap markerText := by
  rw [List.filterMap_cons]
  cases markerText n <;> simp

/-- The scenarios of a list of nodes with one more node at the end. -/
theorem filterMap_append_toList (n : Node) (l : List Node) :
    l.filterMap markerText ++ (markerText n).toList = (l ++ [n]).filterMap markerText := by
  rw [List.filterMap_append, List.filterMap_cons]
  cases markerText n <;> simp

mutual
/-- Walking a tree appends the scenarios of its nodes in pre-order. -/
theorem Walk_eq : ∀ (n : Node) (v : visitor),
    Walk v n = v.push ((preorder n).filterMap markerText)
  | .Ident name, v => by
    simp only [Walk, walkWith_eq, preorder, id]
    rw [← toList_append_filterMap]; simp
  | .BasicLit k s, v => by
    simp only [Walk, walkWith_eq, preorder, id]
    rw [← toList_append_filterMap]; simp
  | .SelectorExpr x sel, v => by
    simp only [Walk, walkWith_eq, preorder, id, Walk_eq x, push_push]
    rw [← toList_append_filterMap, ← filterMap_append_toList]
  | .CallExpr fn args, v => by
    simp only [Walk, walkWith_eq, preorder, Walk_eq fn, walkList_eq args, push_push]
    rw [← toList_append_filterMap, List.filterMap_append]
  | .GenDecl specs, v => by
    simp only [Walk, walkWith_eq, preorder, walkList_eq specs, push_push]
    rw [← toList_append_filterMap]
  | .Other cs, v => by
    simp only [Walk, walkWith_eq, preorder, walkList_eq cs, push_push]
    rw [← toList_append_filterMap]
/-- Walking a forest appends the scenarios of its nodes in pre-order. -/
theorem walkList_eq : ∀ (ns : List Node) (v : visitor),
    walkList v ns = v.push ((preorderList ns).filterMap markerText)
  | [], v => by simp [walkList, preorderList, push_nil]
  | n :: ns, v => by
    simp only [walkList, preorderList, Walk_eq n, walkList_eq ns, push_push,
      List.filterMap_append]
end

/-- A new visitor has collected nothing. -/
theorem newVisitor_gherkins (f : File) : (newVisitor f).gherkins = [] := rfl

/-- The scenarios collected by the walk of a file. -/
theorem Walk_file (f : File) :
    (Walk (newVisitor f) f.node).gherkins = fileScenarios f := by
  rw [Walk_eq]
  simp [visitor.push, newVisitor_gherkins, fileScenarios]

/-- The loop over files that all parse appends their scenario lists in order. -/
theorem extractLoop_ok (env : Env) :
    ∀ (files : List String) (asts : List File) (r : Results),
      files.map env.parse = asts.map Except.ok →
      extractLoop env files r
        = ({ r with Scenarios := r.Scenarios ++ asts.flatMap fileScenarios }, none)
  | [], asts, r, h => by
    cases asts with
    | nil => simp [extractLoop]
    | cons a as => simp at h
  | file :: rest, asts, r, h => by
    cases asts with
    | nil => simp at h
    | cons a as =>
      simp only [List.map_cons, List.cons.injEq] at h
      obtain ⟨h1, h2⟩ := h
      simp only [extractLoop, h1, Walk_file]
      rw [extractLoop_ok env rest as _ h2]
      simp [List.flatMap_cons, List.append_assoc]

/-- The loop over files one of which fails to parse returns the empty results
and the parse error of one of the files. -/
theorem extractLoop_fail (env : Env) :
    ∀ (files : List String) (r : Results),
      (∃ file ∈ files, ∃ e, env.parse file = .error e) →
      (extractLoop env files r).1 = {} ∧
        ∃ file ∈ files, ∃ e, env.parse file = .error e ∧
          (extractLoop env files r).2 = some e
  | [], r, h => by simp at h
  | file :: rest, r, h => by
    cases hp : env.parse file with
    | error e =>
      have hl : extractLoop env (file :: rest) r = ({}, some e) := by
        simp only [extractLoop, hp]
      rw [hl]
      exact ⟨rfl, file, List.mem_cons_self _ _, e, hp, rfl⟩
    | ok f =>
      have h2 : ∃ file ∈ rest, ∃ e, env.parse file = .error e := by
        obtain ⟨g, hg, e, he⟩ := h
        rcases List.mem_cons.mp hg with rfl | hg
        · rw [hp] at he; cases he
        · exact ⟨g, hg, e, he⟩
      simp only [extractLoop, hp]
      obtain ⟨k1, g, hg, e, he, k2⟩ := extractLoop_fail env rest _ h2
      exact ⟨k1, g, List.mem_cons_of_mem _ hg, e, he, k2⟩

/-- The loop never records a walked file. -/
theorem extractLoop_Walked (env : Env) :
    ∀ (files : List String) (r : Results), r.Walked = [] →
      (extractLoop env files r).1.Walked = []
  | [], r, h => by simpa [extractLoop] using h
  | file :: rest, r, h => by
    cases hp : env.parse file with
    | error e => simp [extractLoop, hp]
    | ok f =>
      simp only [extractLoop, hp]
      exact extractLoop_Walked env rest _ h

/-- The list of walked files returned by `Extract` is always empty. -/
theorem Extract_Walked (env : Env) (base : String) :
    (Extract env base).1.Walked = [] := by
  unfold Extract
  rcases hw : walkGoFiles env base with ⟨files, _ | err⟩
  · simp only
    split
    · rfl
    · exact extractLoop_Walked env files _ rfl
  · rfl

/-! ## Shape matching, results and errors -/

/-- What `extractScenario` returns on a marker call with a basic-literal argument. -/
theorem extractScenario_markerCall (v : visitor) (k : Token) (raw : String) :
    v.extractScenario (markerCall k raw) = (true, TrimSpace raw) := by
  simp [markerCall, visitor.extractScenario]

/-- A node reported as a match is a call `gherkin.Scenario(lit)` with one
basic-literal argument. -/
theorem matched_shape (v : visitor) (n : Node) (h : (v.extractScenario n).1 = true) :
    ∃ k raw, n = markerCall k raw := by
  unfold visitor.extractScenario at h
  split at h
  · rename_i fn args
    split at h
    · rename_i x sel
      split at h
      · simp at h
      · rename_i hsel
        split at h
        · rename_i name
          split at h
          · simp at h
          · rename_i hname
            split at h
            · simp at h
            · rename_i hlen
              split at h
              · rename_i k value hhead
                have hs : sel = "Scenario" := by simpa using hsel
                have hn : name = "gherkin" := by simpa using hname
                have hl : args.length = 1 := by simpa using hlen
                match args, hl, hhead with
                | [a], _, hhead =>
                  simp only [List.head?_cons, Option.some.injEq] at hhead
                  exact ⟨k, value, by rw [hs, hn, hhead]; rfl⟩
              · simp at h
        · simp at h
    · simp at h
  · simp at h

/-- The scenario a node contributes is the text of a call
`gherkin.Scenario(lit)` with one basic-literal argument, and nothing for any
other node. -/
theorem markerText_eq_literalCallText (n : Node) : markerText n = literalCallText n := by
  by_cases h : (visitor.extractScenario ⟨[], []⟩ n).1 = true
  · obtain ⟨k, raw, rfl⟩ := matched_shape _ n h
    simp only [markerText, extractScenario_markerCall]
    simp [literalCallText, markerCall]
  · have hm : markerText n = none := by simp [markerText, h]
    rw [hm]
    unfold literalCallText
    split
    · rename_i q sel k raw
      split
      · rename_i hq
        obtain ⟨rfl, rfl⟩ := hq
        exact absurd (by simp [visitor.extractScenario]) h
      · rfl
    · rfl

/-- A file's scenario list, by the shape of its nodes. -/
theorem fileScenarios_eq (f : File) :
    fileScenarios f = (preorder f.node).filterMap literalCallText := by
  have hfun : markerText = literalCallText := funext markerText_eq_literalCallText
  rw [fileScenarios, hfun]

/-- A node that is not matched leaves the visitor as it was. -/
theorem Visit_unmatched (v : visitor) (n : Node)
    (h : v.extractScenario n = (false, "")) : v.Visit (some n) = some v := by
  simp [visitor.Visit, h]

/-- Trimming a quoted literal removes nothing: it starts and ends with a quote. -/
theorem TrimSpace_quoted (X : String) : TrimSpace (quoted X) = quoted X := by
  have hd : (quoted X).data = '"' :: (X.data ++ ['"']) := by simp [quoted]
  apply String.ext
  simp only [TrimSpace, hd]
  rw [List.dropWhile_cons_of_neg (by decide)]
  rw [List.reverse_cons, List.reverse_append, List.reverse_singleton,
    List.singleton_append, List.cons_append]
  rw [List.dropWhile_cons_of_neg (by decide)]
  simp

/-- The result of `Extract` when the enumeration is non-empty and every file parses. -/
theorem Extract_ok (env : Env) (base : String) (files : List String) (asts : List File)
    (hwalk : walkGoFiles env base = (files, none)) (hne : files ≠ [])
    (hparse : files.map env.parse = asts.map Except.ok) :
    Extract env base = ({ Walked := [], Scenarios := asts.flatMap fileScenarios }, none) := by
  have hlen : ¬ files.length = 0 := by
    intro h
    exact hne (List.length_eq_zero.mp h)
  unfold Extract
  rw [hwalk]
  simp only [hlen, if_false]
  rw [extractLoop_ok env files asts _ hparse]
  simp

/-- C1: a call whose function is the selector `gherkin.Scenario` and whose
argument list is exactly one string-literal token is reported as a match by
`extractScenario`, for every visitor state and every literal text: nothing
but the node is consulted. -/
theorem C1_marker_call_matches (v : visitor) (raw : String) :
    (v.extractScenario
      (.CallExpr (.SelectorExpr (.Ident "gherkin") "Scenario")
        [.BasicLit .STRING raw])).1 = true := by
  simp [visitor.extractScenario]

/-- C2: at the call whose argument is the raw string literal made of a
backtick, a tab, `A` and a backtick, `extractScenario` returns the literal
text with the tab still in it, whereas removing every tab and then trimming,
as the claim states, gives the text without the tab. -/
theorem C2_tab_is_kept :
    visitor.extractScenario ⟨[], []⟩ (markerCall .STRING "`\tA`") = (true, "`\tA`")
      ∧ '\t' ∈ (visitor.extractScenario ⟨[], []⟩ (markerCall .STRING "`\tA`")).2.data
      ∧ TrimSpace (indentReplacer "`\tA`") = "`A`" := by
  decide

/-- C3: on a directory with two Go files that both parse, the enumerator
returns the two paths and `Extract` succeeds, yet `Results.Walked` is empty:
the field is never assigned. -/
theorem C3_Walked_left_empty :
    walkGoFiles envTwo "d" = (["d/a.go", "d/b.go"], none)
      ∧ (Extract envTwo "d").2 = none
      ∧ (Extract envTwo "d").1.Walked = [] := by
  decide

/-- C4 (as stated, refuted): the only file of the directory parses and holds
the call `gherkin.Scenario(42)`; no node of its tree has the marker shape,
whose argument is a string literal, yet `Extract` succeeds with the one
scenario `42`: an entry that corresponds to no marker call. -/
theorem C4_entry_without_marker_shape :
    walkGoFiles envInt "d" = (["d/i.go"], none)
      ∧ envInt.parse "d/i.go" = .ok fileInt
      ∧ ((preorder fileInt.node).filter isMarkerCallSpec).length = 0
      ∧ Extract envInt "d" = ({ Walked := [], Scenarios := ["42"] }, none) := by
  refine ⟨by decide, rfl, by decide, by decide⟩

/-- C4 (amended): when the enumerator returns the non-empty list `files` and
every file parses (to the trees `asts`, in order), `Extract` succeeds and
`Results.Scenarios` is the concatenation, in file order, of the files'
scenario lists, a file's list holding one entry, the trimmed raw text of the
literal, for each node of its tree, in depth-first pre-order, that is a call
`gherkin.Scenario(lit)` with exactly one argument, a basic literal of any
kind. -/
theorem C4_scenarios_in_file_then_preorder (env : Env) (base : String)
    (files : List String) (asts : List File)
    (hwalk : walkGoFiles env base = (files, none)) (hne : files ≠ [])
    (hparse : files.map env.parse = asts.map Except.ok) :
    (Extract env base).2 = none
      ∧ (Extract env base).1.Scenarios
          = asts.flatMap (fun f => (preorder f.node).filterMap literalCallText) := by
  rw [Extract_ok env base files asts hwalk hne hparse]
  refine ⟨rfl, ?_⟩
  have hfun : fileScenarios = fun f => (preorder f.node).filterMap literalCallText :=
    funext fileScenarios_eq
  simp only [hfun]

/-- C4 (amended) at the directory with the files `d/a.go` and `d/b.go`: the
two scenarios of the first file, the nested one last, precede the scenario
of the second file. -/
theorem C4_scenarios_in_file_then_preorder_witness :
    ((Extract envTwo "d").2 = none
      ∧ (Extract envTwo "d").1.Scenarios
          = [fileA, fileB].flatMap
              (fun f => (preorder f.node).filterMap literalCallText))
      ∧ (Extract envTwo "d").1.Scenarios = ["\"A1\"", "\"A2\"", "\"B1\""] :=
  ⟨C4_scenarios_in_file_then_preorder envTwo "d" ["d/a.go", "d/b.go"] [fileA, fileB]
    (by decide) (by decide) rfl, by decide⟩

/-- C5 (as stated, refuted): the call `gherkin.Scenario(42)`, whose single
argument is an integer literal and not a string literal, is reported as a
match with the text `42`, and `Visit` appends it. -/
theorem C5_int_literal_is_matched :
    Token.INT ≠ Token.STRING
      ∧ visitor.extractScenario ⟨[], []⟩ (markerCall .INT "42") = (true, "42")
      ∧ (visitor.Visit ⟨[], []⟩ (some (markerCall .INT "42"))).map visitor.gherkins
          = some ["42"] := by
  decide

/-- C5 (amended): for a call `gherkin.Scenario(lit)` whose single argument
is a basic literal token, `extractScenario` reports a match and returns the
literal text trimmed, whatever the kind of the literal: the kind is not part
of the shape that is tested. -/
theorem C5_any_basic_literal_matches (v : visitor) (k : Token) (raw : String) :
    v.extractScenario
        (.CallExpr (.SelectorExpr (.Ident "gherkin") "Scenario") [.BasicLit k raw])
      = (true, TrimSpace raw) := by
  simp [visitor.extractScenario]

/-- C6: when the enumerator succeeds with no path, `Extract` returns the
empty `Results` together with an error whose message is
`no go source files found within ` followed by the base directory given. -/
theorem C6_no_files_is_an_error (env : Env) (base : String)
    (hwalk : walkGoFiles env base = ([], none)) :
    Extract env base
      = ({ Walked := [], Scenarios := [] },
          some ⟨"no go source files found within " ++ base⟩) := by
  unfold Extract
  rw [hwalk]
  simp

/-- C6 at a directory holding no Go file. -/
theorem C6_no_files_is_an_error_witness :
    walkGoFiles envNone "d" = ([], none)
      ∧ Extract envNone "d"
          = ({ Walked := [], Scenarios := [] },
              some ⟨"no go source files found within " ++ "d"⟩) :=
  ⟨by decide, C6_no_files_is_an_error envNone "d" (by decide)⟩

/-- C7: when the enumerator succeeds and some enumerated file fails to
parse, `Extract` returns the empty `Results` (no scenario of the files
before or after the bad one) together with the parse error of an enumerated
file. -/
theorem C7_parse_error_is_fatal (env : Env) (base : String) (files : List String)
    (hwalk : walkGoFiles env base = (files, none))
    (hbad : ∃ file ∈ files, ∃ e, env.parse file = .error e) :
    (Extract env base).1 = { Walked := [], Scenarios := [] }
      ∧ ∃ file ∈ files, ∃ e, env.parse file = .error e ∧ (Extract env base).2 = some e := by
  have hlen : ¬ files.length = 0 := by
    intro h
    obtain ⟨file, hmem, _⟩ := hbad
    rw [List.length_eq_zero.mp h] at hmem
    cases hmem
  have hE : Extract env base = extractLoop env files {} := by
    unfold Extract
    rw [hwalk]
    simp only [hlen, if_false]
  rw [hE]
  exact extractLoop_fail env files {} hbad

/-- C7 at a directory whose second file of three does not parse, the other
two holding marker calls. -/
theorem C7_parse_error_is_fatal_witness :
    (Extract envBad "d").1 = { Walked := [], Scenarios := [] }
      ∧ ∃ file ∈ ["d/a.go", "d/b.go", "d/c.go"], ∃ e,
          envBad.parse file = .error e ∧ (Extract envBad "d").2 = some e :=
  C7_parse_error_is_fatal envBad "d" ["d/a.go", "d/b.go", "d/c.go"] (by decide)
    ⟨"d/b.go", by decide, ⟨"d/b.go:1:1: expected declaration"⟩, rfl⟩


/-- C8 (as stated, refuted): the text ` Given x ` has no tab, the only file
of the directory contains the call `gherkin.Scenario(" Given x ")`, and
`Extract` succeeds; the scenarios collected are the one string made of the
quoted literal, so the text with its outer white space removed is not among
them. -/
theorem C8_trimmed_text_not_collected :
    '\t' ∉ " Given x ".data
      ∧ markerCall .STRING (quoted " Given x ") ∈ preorder fileX.node
      ∧ Extract envX "d" = ({ Walked := [], Scenarios := ["\" Given x \""] }, none)
      ∧ TrimSpace " Given x " ∉ (Extract envX "d").1.Scenarios := by
  refine ⟨by decide, ?_, by decide, by decide⟩
  simp [fileX, File.node, preorder, preorderList, markerCall]

/-- C8 (amended): for every text `X` without a tab, when the enumerator
returns a non-empty list of files that all parse and the tree of one of them
contains the call `gherkin.Scenario("X")`, `Extract` succeeds and
`Results.Scenarios` contains the raw literal, that is `X` between its two
quotes with the white space inside the quotes kept. -/
theorem C8_raw_literal_collected (env : Env) (base : String)
    (files : List String) (asts : List File) (f : File) (X : String)
    (_hX : '\t' ∉ X.data)
    (hwalk : walkGoFiles env base = (files, none)) (hne : files ≠ [])
    (hparse : files.map env.parse = asts.map Except.ok)
    (hf : f ∈ asts) (hcall : markerCall .STRING (quoted X) ∈ preorder f.node) :
    (Extract env base).2 = none ∧ quoted X ∈ (Extract env base).1.Scenarios := by
  rw [Extract_ok env base files asts hwalk hne hparse]
  refine ⟨rfl, ?_⟩
  simp only [List.mem_flatMap]
  refine ⟨f, hf, ?_⟩
  unfold fileScenarios
  rw [List.mem_filterMap]
  refine ⟨_, hcall, ?_⟩
  simp [markerText, extractScenario_markerCall, TrimSpace_quoted]

/-- C8 (amended) at the file whose marker call is `gherkin.Scenario(" Given x ")`. -/
theorem C8_raw_literal_collected_witness :
    (Extract envX "d").2 = none
      ∧ quoted " Given x " ∈ (Extract envX "d").1.Scenarios :=
  C8_raw_literal_collected envX "d" ["d/x_test.go"] [fileX] fileX " Given x "
    (by decide) (by decide) (by decide) rfl (List.mem_singleton.mpr rfl)
    (by simp [fileX, File.node, preorder, preorderList, markerCall])

/-- C9: a call whose function is a selector with selected name `Scenario`
but whose qualifier is anything other than the identifier `gherkin` (another
identifier, or an expression that is not an identifier) is not reported as a
match, and visiting it appends no scenario. -/
theorem C9_wrong_qualifier_no_match (v : visitor) (x : Node) (args : List Node)
    (hx : x ≠ .Ident "gherkin") :
    v.extractScenario (.CallExpr (.SelectorExpr x "Scenario") args) = (false, "")
      ∧ v.Visit (some (.CallExpr (.SelectorExpr x "Scenario") args)) = some v := by
  have h : v.extractScenario (.CallExpr (.SelectorExpr x "Scenario") args) = (false, "") := by
    cases x with
    | Ident name =>
      have hn : name ≠ "gherkin" := fun he => hx (by rw [he])
      simp [visitor.extractScenario, hn]
    | _ => simp [visitor.extractScenario]
  exact ⟨h, Visit_unmatched v _ h⟩

/-- C9 at the call `other.Scenario("X")`, with one scenario already collected. -/
theorem C9_wrong_qualifier_no_match_witness :
    visitor.extractScenario ⟨[], ["s"]⟩
        (.CallExpr (.SelectorExpr (.Ident "other") "Scenario") [.BasicLit .STRING "\"X\""])
      = (false, "")
      ∧ visitor.Visit ⟨[], ["s"]⟩
          (some (.CallExpr (.SelectorExpr (.Ident "other") "Scenario")
            [.BasicLit .STRING "\"X\""]))
        = some ⟨[], ["s"]⟩ :=
  C9_wrong_qualifier_no_match ⟨[], ["s"]⟩ (.Ident "other") [.BasicLit .STRING "\"X\""]
    (by simp)

/-- C10: a call is not reported as a match, and visiting it appends no
scenario, when its function is the selector `gherkin.sel` with `sel` other
than `Scenario`, and also when its function is not a selector at all. -/
theorem C10_wrong_name_or_no_selector (v : visitor) (fn : Node) (args : List Node)
    (hfn : (∃ sel, sel ≠ "Scenario" ∧ fn = .SelectorExpr (.Ident "gherkin") sel)
      ∨ (∀ x sel, fn ≠ .SelectorExpr x sel)) :
    v.extractScenario (.CallExpr fn args) = (false, "")
      ∧ v.Visit (some (.CallExpr fn args)) = some v := by
  have h : v.extractScenario (.CallExpr fn args) = (false, "") := by
    rcases hfn with ⟨sel, hsel, rfl⟩ | hns
    · simp [visitor.extractScenario, hsel]
    · cases fn with
      | SelectorExpr x sel => exact absurd rfl (hns x sel)
      | _ => simp [visitor.extractScenario]
  exact ⟨h, Visit_unmatched v _ h⟩

/-- C10 at the calls `gherkin.Note("X")` and `Scenario("X")`. -/
theorem C10_wrong_name_or_no_selector_witness :
    (visitor.extractScenario ⟨[], []⟩
        (.CallExpr (.SelectorExpr (.Ident "gherkin") "Note") [.BasicLit .STRING "\"X\""])
      = (false, "")
      ∧ visitor.Visit ⟨[], []⟩
          (some (.CallExpr (.SelectorExpr (.Ident "gherkin") "Note")
            [.BasicLit .STRING "\"X\""]))
        = some ⟨[], []⟩)
    ∧ (visitor.extractScenario ⟨[], []⟩
        (.CallExpr (.Ident "Scenario") [.BasicLit .STRING "\"X\""])
      = (false, "")
      ∧ visitor.Visit ⟨[], []⟩
          (some (.CallExpr (.Ident "Scenario") [.BasicLit .STRING "\"X\""]))
        = some ⟨[], []⟩) :=
  ⟨C10_wrong_name_or_no_selector ⟨[], []⟩ _ _ (Or.inl ⟨"Note", by decide, rfl⟩),
   C10_wrong_name_or_no_selector ⟨[], []⟩ _ _ (Or.inr (fun _ _ h => by cases h))⟩

/-! ## Lemmas on the shape test -/

/-- Trimming a token that starts and ends with a character that is not white
space removes nothing. -/
theorem TrimSpace_delimited (d : Char) (body : List Char) (hd : isSpace d = false) :
    TrimSpace ⟨d :: (body ++ [d])⟩ = ⟨d :: (body ++ [d])⟩ := by
  apply String.ext
  simp only [TrimSpace]
  rw [List.dropWhile_cons_of_neg (by simp [hd])]
  rw [List.reverse_cons, List.reverse_append, List.reverse_singleton,
    List.singleton_append, List.cons_append]
  rw [List.dropWhile_cons_of_neg (by simp [hd])]
  simp

/-! ## Lemmas on trimming and formatting -/

/-- Trimming only removes characters. -/
theorem mem_of_mem_TrimSpace (t : String) (c : Char) (h : c ∈ (TrimSpace t).data) :
    c ∈ t.data := by
  simp only [TrimSpace, List.mem_reverse] at h
  have h1 := List.dropWhile_subset isSpace h
  rw [List.mem_reverse] at h1
  exact List.dropWhile_subset isSpace h1

/-- No tab is left by the replacer. -/
theorem indentReplacer_no_tab (t : String) : '\t' ∉ (indentReplacer t).data := by
  simp [indentReplacer, List.mem_filter]

/-- The replacer changes nothing in a string without a tab. -/
theorem indentReplacer_eq_self (t : String) (h : '\t' ∉ t.data) : indentReplacer t = t := by
  apply String.ext
  simp only [indentReplacer]
  rw [List.filter_eq_self]
  intro c hc
  have : c ≠ '\t' := fun he => h (he ▸ hc)
  simpa using this

/-- A list whose white space has been dropped at the front does not start
with white space. -/
theorem head_dropWhile_isSpace_not (l : List Char) (c : Char)
    (h : (l.dropWhile isSpace).head? = some c) : isSpace c = false := by
  have := List.head?_dropWhile_not isSpace l
  rw [h] at this
  exact this

/-- A trimmed string does not end with white space. -/
theorem endsWithSpace_TrimSpace (t : String) : endsWithSpace (TrimSpace t) = false := by
  simp only [endsWithSpace, TrimSpace, List.getLast?_reverse]
  split
  · rename_i c hc
    exact head_dropWhile_isSpace_not _ c hc
  · rfl

/-- A trimmed string does not start with white space. -/
theorem startsWithSpace_TrimSpace (t : String) : startsWithSpace (TrimSpace t) = false := by
  simp only [startsWithSpace, TrimSpace]
  split
  · rename_i c hc
    obtain ⟨pre, hpre⟩ := List.dropWhile_suffix (l := (t.data.dropWhile isSpace).reverse) isSpace
    generalize hD : List.dropWhile isSpace (t.data.dropWhile isSpace).reverse = D at hc hpre
    have hrev : t.data.dropWhile isSpace = D.reverse ++ pre.reverse := by
      have := congrArg List.reverse hpre
      simpa using this.symm
    have hne : D.reverse ≠ [] := by
      intro he
      rw [he] at hc
      simp at hc
    have hh : (t.data.dropWhile isSpace).head? = some c := by
      rw [hrev, List.head?_append_of_ne_nil _ hne]
      exact hc
    exact head_dropWhile_isSpace_not _ c hh
  · rfl

/-- Trimming changes nothing in a string that neither starts nor ends with
white space. -/
theorem TrimSpace_eq_self (t : String) (h1 : startsWithSpace t = false)
    (h2 : endsWithSpace t = false) : TrimSpace t = t := by
  apply String.ext
  simp only [TrimSpace]
  have e1 : t.data.dropWhile isSpace = t.data := by
    cases hl : t.data with
    | nil => rfl
    | cons c l =>
      simp only [startsWithSpace, hl, List.head?_cons] at h1
      rw [List.dropWhile_cons_of_neg (by simp [h1])]
  rw [e1]
  have e2 : t.data.reverse.dropWhile isSpace = t.data.reverse := by
    cases hl : t.data.reverse with
    | nil => rfl
    | cons c l =>
      have hlast : t.data.getLast? = some c := by
        rw [← List.head?_reverse, hl, List.head?_cons]
      simp only [endsWithSpace, hlast] at h2
      rw [List.dropWhile_cons_of_neg (by simp [h2])]
  rw [e2, List.reverse_reverse]

/-- A format without a percent sign and without operands is printed as it is. -/
theorem doPrintf_plain : ∀ (l : List Char), '%' ∉ l → doPrintf l [] = some l
  | [], _ => rfl
  | c :: rest, h => by
    have hc : c ≠ '%' := fun he => h (he ▸ List.mem_cons_self _ _)
    have hr : '%' ∉ rest := fun hm => h (List.mem_cons_of_mem _ hm)
    unfold doPrintf
    simp [hc, doPrintf_plain rest hr]

/-- The model of `Sprintf` on a format without a percent sign and without
operands. -/
theorem Sprintf_plain (s : String) (h : '%' ∉ s.data) : Sprintf s [] = some s := by
  simp [Sprintf, doPrintf_plain s.data h]

/-- `Scenario` on a format without a percent sign and without operands. -/
theorem Scenario_plain (sprintf : String → List Arg → String) (hfmt : agreesWithFmt sprintf)
    (s : String) (h : '%' ∉ s.data) :
    Scenario sprintf s [] = TrimSpace (indentReplacer s) := by
  simp only [Scenario, hfmt s [] s (Sprintf_plain s h)]

/-- The formatter `fragmentSprintf` agrees with the model it follows. -/
theorem fragmentSprintf_agrees : agreesWithFmt fragmentSprintf := by
  intro s a r h
  simp [fragmentSprintf, h]

/-! ## Lemmas on the enumeration -/

/-- The walk over entries none of which carries an error collects the paths
with the Go extension, in order, whatever the kind of the entries. -/
theorem filepathWalk_no_error :
    ∀ (entries : List WalkEntry) (acc : List String),
      (∀ x ∈ entries, x.err = none) →
      filepathWalk walkGoFilesFn entries acc
        = (acc ++ (entries.filter (fun x => Ext x.path = ".go")).map WalkEntry.path, none)
  | [], acc, _ => by simp [filepathWalk]
  | x :: rest, acc, h => by
    have hx : x.err = none := h x (List.mem_cons_self _ _)
    have hr : ∀ y ∈ rest, y.err = none := fun y hy => h y (List.mem_cons_of_mem _ hy)
    by_cases hg : Ext x.path = ".go"
    · simp [filepathWalk, walkGoFilesFn, hx, hg, filepathWalk_no_error rest _ hr]
    · simp [filepathWalk, walkGoFilesFn, hx, hg, filepathWalk_no_error rest _ hr]

/-- The walk stops at the first entry carrying an error and returns it with
the paths collected up to there. -/
theorem filepathWalk_first_error :
    ∀ (pre : List WalkEntry) (bad : WalkEntry) (post : List WalkEntry) (e : GoError)
      (acc : List String),
      (∀ x ∈ pre, x.err = none) → bad.err = some e →
      filepathWalk walkGoFilesFn (pre ++ bad :: post) acc
        = (acc ++ (pre.filter (fun x => Ext x.path = ".go")).map WalkEntry.path, some e)
  | [], bad, post, e, acc, _, hb => by simp [filepathWalk, walkGoFilesFn, hb]
  | x :: rest, bad, post, e, acc, h, hb => by
    have hx : x.err = none := h x (List.mem_cons_self _ _)
    have hr : ∀ y ∈ rest, y.err = none := fun y hy => h y (List.mem_cons_of_mem _ hy)
    by_cases hg : Ext x.path = ".go"
    · simp [filepathWalk, walkGoFilesFn, hx, hg,
        filepathWalk_first_error rest bad post e _ hr hb]
    · simp [filepathWalk, walkGoFilesFn, hx, hg,
        filepathWalk_first_error rest bad post e _ hr hb]

/-- Files none of which fails to parse have trees. -/
theorem trees_of_no_parse_error (env : Env) :
    ∀ (files : List String),
      (¬ ∃ file ∈ files, ∃ e, env.parse file = .error e) →
      ∃ asts : List File, files.map env.parse = asts.map Except.ok
  | [], _ => ⟨[], rfl⟩
  | file :: rest, h => by
    have hr : ¬ ∃ g ∈ rest, ∃ e, env.parse g = .error e := by
      rintro ⟨g, hg, e, he⟩
      exact h ⟨g, List.mem_cons_of_mem _ hg, e, he⟩
    obtain ⟨asts, hasts⟩ := trees_of_no_parse_error env rest hr
    cases hp : env.parse file with
    | error e => exact absurd ⟨file, List.mem_cons_self _ _, e, hp⟩ h
    | ok f => exact ⟨f :: asts, by simp [hp, hasts]⟩

/-- A file none of whose nodes is a call `gherkin.Scenario(lit)` with one
basic-literal argument has no scenario. -/
theorem fileScenarios_nil (f : File)
    (h : ∀ n ∈ preorder f.node, literalCallText n = none) :
    fileScenarios f = [] := by
  rw [fileScenarios_eq, List.filterMap_eq_nil_iff]
  exact h

/-! ## Argument shape, the helper Scenario, enumeration and purity -/

/-- C11: a call `gherkin.Scenario(...)` whose number of arguments is not
exactly one is not reported as a match, whatever the arguments are, and
visiting it appends no scenario. -/
theorem C11_argument_count_not_one (v : visitor) (args : List Node)
    (hlen : args.length ≠ 1) :
    v.extractScenario (.CallExpr (.SelectorExpr (.Ident "gherkin") "Scenario") args)
        = (false, "")
      ∧ v.Visit (some (.CallExpr (.SelectorExpr (.Ident "gherkin") "Scenario") args))
        = some v := by
  have h : v.extractScenario
      (.CallExpr (.SelectorExpr (.Ident "gherkin") "Scenario") args) = (false, "") := by
    simp [visitor.extractScenario, hlen]
  exact ⟨h, Visit_unmatched v _ h⟩

/-- C11 at the calls `gherkin.Scenario("X", "Y")` and `gherkin.Scenario()`. -/
theorem C11_argument_count_not_one_witness :
    (visitor.extractScenario ⟨[], []⟩
        (.CallExpr (.SelectorExpr (.Ident "gherkin") "Scenario")
          [.BasicLit .STRING "\"X\"", .BasicLit .STRING "\"Y\""])
        = (false, "")
      ∧ visitor.Visit ⟨[], []⟩
          (some (.CallExpr (.SelectorExpr (.Ident "gherkin") "Scenario")
            [.BasicLit .STRING "\"X\"", .BasicLit .STRING "\"Y\""]))
        = some ⟨[], []⟩)
    ∧ (visitor.extractScenario ⟨[], []⟩
        (.CallExpr (.SelectorExpr (.Ident "gherkin") "Scenario") [])
        = (false, "")
      ∧ visitor.Visit ⟨[], []⟩
          (some (.CallExpr (.SelectorExpr (.Ident "gherkin") "Scenario") []))
        = some ⟨[], []⟩) :=
  ⟨C11_argument_count_not_one ⟨[], []⟩ _ (by decide),
   C11_argument_count_not_one ⟨[], []⟩ _ (by decide)⟩

/-- C12: a call `gherkin.Scenario(e)` whose single argument is not a basic
literal token is not reported as a match, and visiting it appends no
scenario. -/
theorem C12_argument_not_a_literal (v : visitor) (e : Node)
    (he : ∀ k raw, e ≠ .BasicLit k raw) :
    v.extractScenario (.CallExpr (.SelectorExpr (.Ident "gherkin") "Scenario") [e])
        = (false, "")
      ∧ v.Visit (some (.CallExpr (.SelectorExpr (.Ident "gherkin") "Scenario") [e]))
        = some v := by
  have h : v.extractScenario
      (.CallExpr (.SelectorExpr (.Ident "gherkin") "Scenario") [e]) = (false, "") := by
    cases e with
    | BasicLit k raw => exact absurd rfl (he k raw)
    | _ => simp [visitor.extractScenario]
  exact ⟨h, Visit_unmatched v _ h⟩

/-- C12 at the calls `gherkin.Scenario(someVariable)` and
`gherkin.Scenario(("X"))`, a parenthesised literal. -/
theorem C12_argument_not_a_literal_witness :
    (visitor.extractScenario ⟨[], []⟩
        (.CallExpr (.SelectorExpr (.Ident "gherkin") "Scenario") [.Ident "someVariable"])
        = (false, "")
      ∧ visitor.Visit ⟨[], []⟩
          (some (.CallExpr (.SelectorExpr (.Ident "gherkin") "Scenario")
            [.Ident "someVariable"]))
        = some ⟨[], []⟩)
    ∧ (visitor.extractScenario ⟨[], []⟩
        (.CallExpr (.SelectorExpr (.Ident "gherkin") "Scenario")
          [.Other [.BasicLit .STRING "\"X\""]])
        = (false, "")
      ∧ visitor.Visit ⟨[], []⟩
          (some (.CallExpr (.SelectorExpr (.Ident "gherkin") "Scenario")
            [.Other [.BasicLit .STRING "\"X\""]]))
        = some ⟨[], []⟩) :=
  ⟨C12_argument_not_a_literal ⟨[], []⟩ _ (fun _ _ h => by cases h),
   C12_argument_not_a_literal ⟨[], []⟩ _ (fun _ _ h => by cases h)⟩

/-- C13: for every formatter that prints what `fmt.Sprintf` prints,
`Scenario` returns the formatted text with its tabs removed and then its
outer white space trimmed; the result holds no tab and neither starts nor
ends with white space; and on the format `Given %s has %d items` with the
operands `Bruce` and `3` it returns `Given Bruce has 3 items`. -/
theorem C13_Scenario_formats_strips_trims (sprintf : String → List Arg → String)
    (hfmt : agreesWithFmt sprintf) (s : String) (a : List Arg) :
    Scenario sprintf s a = TrimSpace ⟨(sprintf s a).data.filter (fun c => c ≠ '\t')⟩
      ∧ '\t' ∉ (Scenario sprintf s a).data
      ∧ startsWithSpace (Scenario sprintf s a) = false
      ∧ endsWithSpace (Scenario sprintf s a) = false
      ∧ Scenario sprintf "Given %s has %d items" [.str "Bruce", .int 3]
          = "Given Bruce has 3 items" := by
  refine ⟨rfl, ?_, startsWithSpace_TrimSpace _, endsWithSpace_TrimSpace _, ?_⟩
  · intro h
    exact indentReplacer_no_tab _ (mem_of_mem_TrimSpace _ _ h)
  · have hS : Sprintf "Given %s has %d items" [.str "Bruce", .int 3]
        = some "Given Bruce has 3 items" := by decide
    simp only [Scenario, hfmt _ _ _ hS]
    decide

/-- C13 at a format with tabs, outer blanks and a line break between two
verbs. -/
theorem C13_Scenario_formats_strips_trims_witness :
    (Scenario fragmentSprintf " \tGiven %s\n\t\thas %d items\n" [.str "Bruce", .int 3]
        = TrimSpace ⟨(fragmentSprintf " \tGiven %s\n\t\thas %d items\n"
            [.str "Bruce", .int 3]).data.filter (fun c => c ≠ '\t')⟩
      ∧ '\t' ∉ (Scenario fragmentSprintf " \tGiven %s\n\t\thas %d items\n"
            [.str "Bruce", .int 3]).data
      ∧ startsWithSpace (Scenario fragmentSprintf " \tGiven %s\n\t\thas %d items\n"
            [.str "Bruce", .int 3]) = false
      ∧ endsWithSpace (Scenario fragmentSprintf " \tGiven %s\n\t\thas %d items\n"
            [.str "Bruce", .int 3]) = false
      ∧ Scenario fragmentSprintf "Given %s has %d items" [.str "Bruce", .int 3]
          = "Given Bruce has 3 items")
    ∧ Scenario fragmentSprintf " \tGiven %s\n\t\thas %d items\n" [.str "Bruce", .int 3]
        = "Given Bruce\nhas 3 items" :=
  ⟨C13_Scenario_formats_strips_trims fragmentSprintf fragmentSprintf_agrees
      " \tGiven %s\n\t\thas %d items\n" [.str "Bruce", .int 3], by decide⟩

/-- C14: on a directory holding a sub-directory named `nats.go`, the
enumerator returns the path of that sub-directory among the files, although
it is a directory and not a regular file; `Extract` then fails on it. -/
theorem C14_directory_is_listed :
    (⟨"d/nats.go", .dir, none⟩ : WalkEntry) ∈ envDirGo.walk "d"
      ∧ walkGoFiles envDirGo "d" = (["d/b.go", "d/nats.go", "d/nats.go/conn.go"], none)
      ∧ Extract envDirGo "d" = ({}, some ⟨"read d/nats.go: is a directory"⟩) := by
  decide

/-- C15 (as stated, refuted): the walk meets an error at `d/locked` after
the file `d/a.go`; the enumerator returns that error together with the path
collected before it, not with an empty list. -/
theorem C15_partial_list_returned :
    walkGoFiles envErr "d" = (["d/a.go"], some ⟨"open d/locked: permission denied"⟩)
      ∧ (walkGoFiles envErr "d").1 ≠ [] := by
  decide

/-- C15 (amended): when the walk reports an error at an entry, the entries
before it carrying none, the enumerator stops there and returns that error
together with the Go paths collected before the failing entry (no later
entry is looked at); `Extract` discards that list and returns the error with
the empty `Results`. -/
theorem C15_first_error_aborts (env : Env) (p : String)
    (pre : List WalkEntry) (bad : WalkEntry) (post : List WalkEntry) (e : GoError)
    (hwalk : env.walk p = pre ++ bad :: post)
    (hpre : ∀ x ∈ pre, x.err = none) (hbad : bad.err = some e) :
    walkGoFiles env p
        = ((pre.filter (fun x => Ext x.path = ".go")).map WalkEntry.path, some e)
      ∧ Extract env p = ({ Walked := [], Scenarios := [] }, some e) := by
  have hw : walkGoFiles env p
      = ((pre.filter (fun x => Ext x.path = ".go")).map WalkEntry.path, some e) := by
    unfold walkGoFiles
    rw [hwalk, filepathWalk_first_error pre bad post e [] hpre hbad]
    simp
  refine ⟨hw, ?_⟩
  unfold Extract
  rw [hw]

/-- C15 (amended) at the directory whose walk fails at `d/locked`. -/
theorem C15_first_error_aborts_witness :
    walkGoFiles envErr "d"
        = ((([⟨"d", .dir, none⟩, ⟨"d/a.go", .regular, none⟩] : List WalkEntry).filter
            (fun x => Ext x.path = ".go")).map WalkEntry.path,
           some ⟨"open d/locked: permission denied"⟩)
      ∧ Extract envErr "d"
        = ({ Walked := [], Scenarios := [] }, some ⟨"open d/locked: permission denied"⟩) :=
  C15_first_error_aborts envErr "d" [⟨"d", .dir, none⟩, ⟨"d/a.go", .regular, none⟩]
    ⟨"d/locked", .dir, some ⟨"open d/locked: permission denied"⟩⟩
    [⟨"d/z.go", .regular, none⟩] ⟨"open d/locked: permission denied"⟩
    rfl (by decide) rfl

/-- C16 (as stated, refuted): the only file of the directory parses and holds
no marker call, its one call to `gherkin.Scenario` having the integer
literal `42` as argument and not a string literal; `Extract` succeeds, but
not with an empty list of scenarios. -/
theorem C16_int_call_is_collected :
    walkGoFiles envInt "d" = (["d/i.go"], none)
      ∧ envInt.parse "d/i.go" = .ok fileInt
      ∧ (preorder fileInt.node).all (fun n => !isMarkerCallSpec n) = true
      ∧ (Extract envInt "d").2 = none
      ∧ (Extract envInt "d").1.Scenarios ≠ [] := by
  refine ⟨by decide, rfl, by decide, by decide, by decide⟩

/-- C16 (amended): `Extract` returns an error exactly when the enumeration
returns an error, or returns no file, or returns a file that fails to parse;
whenever it returns an error the `Results` returned is empty; and on a
non-empty enumeration of files that all parse and hold no call
`gherkin.Scenario(lit)` with exactly one argument, a basic literal of any
kind, it succeeds with no scenario. -/
theorem C16_error_cases (env : Env) (base : String) :
    ((Extract env base).2 ≠ none ↔
        ((walkGoFiles env base).2 ≠ none ∨ (walkGoFiles env base).1 = []
          ∨ ∃ file ∈ (walkGoFiles env base).1, ∃ e, env.parse file = .error e))
      ∧ ((Extract env base).2 ≠ none →
          (Extract env base).1 = { Walked := [], Scenarios := [] })
      ∧ (∀ asts : List File,
          (walkGoFiles env base).2 = none → (walkGoFiles env base).1 ≠ [] →
          (walkGoFiles env base).1.map env.parse = asts.map Except.ok →
          (∀ f ∈ asts, ∀ n ∈ preorder f.node, literalCallText n = none) →
          (Extract env base).2 = none ∧ (Extract env base).1.Scenarios = []) := by
  rcases hw : walkGoFiles env base with ⟨files, _ | err⟩
  · -- the enumeration succeeded
    by_cases hlen : files.length = 0
    · have hnil : files = [] := List.length_eq_zero.mp hlen
      have hE : Extract env base
          = ({}, some ⟨"no go source files found within " ++ base⟩) := by
        unfold Extract
        rw [hw]
        simp [hlen]
      rw [hE]
      refine ⟨?_, fun _ => rfl, ?_⟩
      · simp [hnil]
      · intro asts _ hne
        exact absurd hnil hne
    · have hne : files ≠ [] := fun h => hlen (by rw [h]; rfl)
      have hE : Extract env base = extractLoop env files {} := by
        unfold Extract
        rw [hw]
        simp only [hlen, if_false]
      by_cases hbad : ∃ file ∈ files, ∃ e, env.parse file = .error e
      · obtain ⟨h1, g, hg, e, he, h2⟩ := extractLoop_fail env files {} hbad
        rw [hE]
        refine ⟨?_, fun _ => h1, ?_⟩
        · simp only [h2]
          simp only [ne_eq, not_true_eq_false, false_or, hne]
          simp only [reduceCtorEq, not_false_eq_true, true_iff]
          exact hbad
        · intro asts _ _ hparse _
          obtain ⟨file, hfile, e1, he1⟩ := hbad
          have hm : env.parse file ∈ files.map env.parse := List.mem_map_of_mem _ hfile
          simp only at hparse
          rw [hparse, he1] at hm
          simp at hm
      · obtain ⟨asts, hasts⟩ := trees_of_no_parse_error env files hbad
        have hok := Extract_ok env base files asts hw hne hasts
        rw [hok]
        refine ⟨?_, fun h => absurd rfl h, ?_⟩
        · simp only [ne_eq, not_true_eq_false, false_iff]
          simp only [hne, false_or]
          exact hbad
        · intro asts1 _ _ hparse hnone
          simp only at hparse
          have hsame : asts1 = asts := by
            have : asts1.map (Except.ok : File → Except GoError File)
                = asts.map Except.ok := by rw [← hparse, hasts]
            exact List.map_injective_iff.mpr (fun a b h => by cases h; rfl) this
          subst hsame
          refine ⟨rfl, ?_⟩
          simp only [List.flatMap_eq_nil_iff]
          intro f hf
          exact fileScenarios_nil f (hnone f hf)
  · -- the enumeration failed
    have hE : Extract env base = ({}, some err) := by
      unfold Extract
      rw [hw]
    rw [hE]
    refine ⟨by simp, fun _ => rfl, ?_⟩
    intro asts h
    simp at h

/-- C16 (amended) at a directory whose second file does not parse (an error,
empty results) and at a directory whose only file holds no call
`gherkin.Scenario(lit)` (success, no scenario). -/
theorem C16_error_cases_witness :
    (Extract envBad "d").1 = { Walked := [], Scenarios := [] }
      ∧ ((Extract envPlain "d").2 = none ∧ (Extract envPlain "d").1.Scenarios = []) :=
  ⟨(C16_error_cases envBad "d").2.1 (by decide),
   (C16_error_cases envPlain "d").2.2 [filePlain] (by decide) (by decide) rfl
     (by
       intro f hf
       rw [List.mem_singleton.mp hf]
       decide)⟩

/-- C17: for a marker call whose argument is a string literal, the raw token
being a body between two double quotes or two backticks, `extractScenario`
reports a match and returns the raw token itself: delimiters kept, body
untouched (no unescaping, and the trim removes nothing). -/
theorem C17_raw_token_verbatim (v : visitor) (d : Char) (body : String)
    (hd : d = '"' ∨ d = Char.ofNat 96) :
    v.extractScenario (markerCall .STRING ⟨d :: (body.data ++ [d])⟩)
      = (true, ⟨d :: (body.data ++ [d])⟩) := by
  have hs : isSpace d = false := by
    rcases hd with rfl | rfl <;> decide
  rw [extractScenario_markerCall, TrimSpace_delimited d body.data hs]

/-- C17 at an interpreted literal holding an escape sequence and outer
blanks, and at a raw literal holding a line break. -/
theorem C17_raw_token_verbatim_witness :
    visitor.extractScenario ⟨[], []⟩ (markerCall .STRING "\" a\\nb \"")
        = (true, "\" a\\nb \"")
      ∧ visitor.extractScenario ⟨[], []⟩ (markerCall .STRING "`\n  Given x\n`")
        = (true, "`\n  Given x\n`") :=
  ⟨C17_raw_token_verbatim ⟨[], []⟩ '"' " a\\nb " (Or.inl rfl),
   C17_raw_token_verbatim ⟨[], []⟩ (Char.ofNat 96) "\n  Given x\n" (Or.inr rfl)⟩

/-- C18: `Visit` on a node returns the visitor itself, never `nil`, its state
being the receiver with the scenario of the node appended when the node
matches; it returns `nil` exactly for the `nil` node; the walk of a node
therefore collects the scenarios of the whole subtree; and below a matched
call there are only the selector, the two identifiers and the literal, none
of which matches, so the walk of a matched call appends exactly one
scenario. -/
theorem C18_visit_never_stops_descent (v : visitor) (n : Node) :
    v.Visit (some n) = some (v.push (markerText n).toList)
      ∧ (∀ o : Option Node, v.Visit o = none ↔ o = none)
      ∧ Walk v n = v.push ((preorder n).filterMap markerText)
      ∧ ((v.extractScenario n).1 = true →
          (∃ k raw, (preorder n).tail
              = [.SelectorExpr (.Ident "gherkin") "Scenario", .Ident "gherkin",
                 .Ident "Scenario", .BasicLit k raw])
            ∧ (∀ m ∈ (preorder n).tail, (v.extractScenario m).1 = false)
            ∧ Walk v n = v.push [(v.extractScenario n).2]) := by
  refine ⟨Visit_some v n, ?_, Walk_eq n v, ?_⟩
  · intro o
    cases o with
    | none => simp [visitor.Visit]
    | some m => simp [Visit_some]
  · intro h
    obtain ⟨k, raw, rfl⟩ := matched_shape v n h
    refine ⟨⟨k, raw, by simp [markerCall, preorder, preorderList]⟩, ?_, ?_⟩
    · intro m hm
      simp only [markerCall, preorder, preorderList, List.tail_cons, List.append_nil,
        List.cons_append, List.nil_append, List.mem_cons, List.mem_singleton,
        List.not_mem_nil, or_false] at hm
      rcases hm with rfl | rfl | rfl | rfl <;> simp [visitor.extractScenario]
    · rw [Walk_eq]
      simp [markerCall, preorder, preorderList, markerText, visitor.extractScenario]

/-- C18 at a matched call, with one scenario already collected. -/
theorem C18_visit_never_stops_descent_witness :
    (∃ k raw, (preorder (markerCall .STRING "\"X\"")).tail
        = [.SelectorExpr (.Ident "gherkin") "Scenario", .Ident "gherkin",
           .Ident "Scenario", .BasicLit k raw])
      ∧ (∀ m ∈ (preorder (markerCall .STRING "\"X\"")).tail,
          (visitor.extractScenario ⟨[], ["s"]⟩ m).1 = false)
      ∧ Walk ⟨[], ["s"]⟩ (markerCall .STRING "\"X\"")
          = visitor.push ⟨[], ["s"]⟩
              [(visitor.extractScenario ⟨[], ["s"]⟩ (markerCall .STRING "\"X\"")).2] :=
  (C18_visit_never_stops_descent ⟨[], ["s"]⟩ (markerCall .STRING "\"X\"")).2.2.2 (by decide)

/-- C19: `extractScenario` returns the same pair whatever the visitor state,
and has no effect on it: a `Visit` call returns the receiver as it was when
the node does not match and the receiver with only the returned text
appended when it does; in both cases `pkgDecl` is unchanged and the scenarios
accumulated before are followed by at most one new element. -/
theorem C19_matching_is_pure (v w : visitor) (n : Node) :
    v.extractScenario n = w.extractScenario n
      ∧ ((v.extractScenario n).1 = false → v.Visit (some n) = some v)
      ∧ ((v.extractScenario n).1 = true →
          v.Visit (some n)
            = some { pkgDecl := v.pkgDecl,
                     gherkins := v.gherkins ++ [(v.extractScenario n).2] })
      ∧ ∃ l : List String, l.length ≤ 1
          ∧ v.Visit (some n)
            = some { pkgDecl := v.pkgDecl, gherkins := v.gherkins ++ l } := by
  refine ⟨rfl, ?_, ?_, ?_⟩
  · intro h
    simp [visitor.Visit, h]
  · intro h
    simp [visitor.Visit, h]
  · by_cases h : (v.extractScenario n).1 = true
    · exact ⟨[(v.extractScenario n).2], by simp, by simp [visitor.Visit, h]⟩
    · exact ⟨[], by simp, by simp [visitor.Visit, h]⟩

/-- C19 at a matched call and at an identifier, for two visitor states. -/
theorem C19_matching_is_pure_witness :
    visitor.Visit ⟨[.GenDecl []], ["s"]⟩ (some (markerCall .STRING "\"X\""))
        = some ⟨[.GenDecl []], ["s", "\"X\""]⟩
      ∧ visitor.Visit ⟨[.GenDecl []], ["s"]⟩ (some (.Ident "x"))
        = some ⟨[.GenDecl []], ["s"]⟩ :=
  ⟨(C19_matching_is_pure ⟨[.GenDecl []], ["s"]⟩ ⟨[], []⟩ (markerCall .STRING "\"X\"")).2.2.1
      (by decide),
   (C19_matching_is_pure ⟨[.GenDecl []], ["s"]⟩ ⟨[], []⟩ (.Ident "x")).2.1 (by decide)⟩

/-- C20: for every formatter that prints what `fmt.Sprintf` prints, and every
text `s` without a percent sign passed with no operand, applying `Scenario`
to its own result gives that result again, and `Scenario` returns `s` itself
exactly when `s` holds no tab and neither starts nor ends with white space. -/
theorem C20_Scenario_idempotent (sprintf : String → List Arg → String)
    (hfmt : agreesWithFmt sprintf) (s : String) (hs : '%' ∉ s.data) :
    Scenario sprintf (Scenario sprintf s []) [] = Scenario sprintf s []
      ∧ (Scenario sprintf s [] = s ↔
          ('\t' ∉ s.data ∧ startsWithSpace s = false ∧ endsWithSpace s = false)) := by
  have h1 : Scenario sprintf s [] = TrimSpace (indentReplacer s) :=
    Scenario_plain sprintf hfmt s hs
  have hmem : ∀ c, c ∈ (TrimSpace (indentReplacer s)).data → c ∈ s.data := by
    intro c hc
    have := mem_of_mem_TrimSpace _ _ hc
    simp only [indentReplacer, List.mem_filter] at this
    exact this.1
  have hpct : '%' ∉ (TrimSpace (indentReplacer s)).data := fun h => hs (hmem _ h)
  have htab : '\t' ∉ (TrimSpace (indentReplacer s)).data := fun h =>
    indentReplacer_no_tab _ (mem_of_mem_TrimSpace _ _ h)
  constructor
  · rw [h1, Scenario_plain sprintf hfmt _ hpct, indentReplacer_eq_self _ htab]
    exact TrimSpace_eq_self _ (startsWithSpace_TrimSpace _) (endsWithSpace_TrimSpace _)
  · rw [h1]
    constructor
    · intro he
      refine ⟨?_, ?_, ?_⟩
      · rw [← he]; exact htab
      · rw [← he]; exact startsWithSpace_TrimSpace _
      · rw [← he]; exact endsWithSpace_TrimSpace _
    · rintro ⟨ht, hb, he⟩
      rw [indentReplacer_eq_self s ht]
      exact TrimSpace_eq_self s hb he

/-- C20 at a text with tabs and outer white space, and at a text without. -/
theorem C20_Scenario_idempotent_witness :
    (Scenario fragmentSprintf (Scenario fragmentSprintf " \tGiven x\n" []) []
        = Scenario fragmentSprintf " \tGiven x\n" []
      ∧ (Scenario fragmentSprintf " \tGiven x\n" [] = " \tGiven x\n" ↔
          ('\t' ∉ " \tGiven x\n".data ∧ startsWithSpace " \tGiven x\n" = false
            ∧ endsWithSpace " \tGiven x\n" = false)))
    ∧ Scenario fragmentSprintf " \tGiven x\n" [] = "Given x"
    ∧ Scenario fragmentSprintf "Given x" [] = "Given x" :=
  ⟨C20_Scenario_idempotent fragmentSprintf fragmentSprintf_agrees " \tGiven x\n" (by decide),
   by decide, by decide⟩

end Gherkin
